import Mathlib

/-!
Verification of the upgrade-provider tool (src/main.go) against its
specification. The Go source is shallowly embedded: pure string processing
is translated to Lean functions over `String`/`List Char`; the filesystem
and external process calls (git, gh, the Go module parser) are abstracted
as explicit inputs describing their outcomes, and the decision logic that
the source applies to those outcomes is translated faithfully.
-/

deriving instance DecidableEq for Except

namespace UpgradeProvider

/-- A single quote character, used to build the exact error strings of the
source (`fmt.Errorf` format strings that quote names). -/
def sq : String := String.mk [Char.ofNat 39]

/-- `isPre pat l` is true when `pat` is a prefix of `l` (Go
`strings.HasPrefix` on the character level; used to locate substrings). -/
def isPre : List Char → List Char → Bool
  | [], _ => true
  | _ :: _, [] => false
  | a :: as, b :: bs => a == b && isPre as bs

/-- Go `strings.Cut(s, sep)`: split around the first instance of `sep`.
`some (before, after)` when `sep` occurs, `none` otherwise. -/
def goCut (sep : List Char) : List Char → Option (List Char × List Char)
  | [] => if isPre sep [] then some ([], ([] : List Char).drop sep.length) else none
  | c :: cs =>
    if isPre sep (c :: cs) then some ([], (c :: cs).drop sep.length)
    else
      match goCut sep cs with
      | none => none
      | some (b, a) => some (c :: b, a)

/-- Go `strings.HasSuffix(s, sfx)`. -/
def hasSfx (s sfx : String) : Bool := isPre sfx.data.reverse s.data.reverse

/-- A digit in the character class `[2-9]` of the `versionSuffix` regular
expression `/v[2-9]+$` (src/main.go line 301). -/
def isDig29 (c : Char) : Bool := '2' ≤ c && c ≤ '9'

/-- `versionSuffix.MatchString s`: the regular expression `/v[2-9]+$`
matches somewhere in `s`, i.e. `s` ends in `/v` followed by a nonempty run
of digits 2..9 reaching the end of the string. -/
def matchVersionSuffix (s : String) : Bool :=
  match s.data.reverse.takeWhile isDig29, s.data.reverse.dropWhile isDig29 with
  | _ :: _, 'v' :: '/' :: _ => true
  | _, _ => false

/-- `modPathWithoutVersion` (src/main.go lines 348-353): strip the part of
the path matched by `versionSuffix` (`/v[2-9]+$`) when it matches. -/
def modPathWithoutVersion (path : String) : String :=
  match path.data.reverse.takeWhile isDig29, path.data.reverse.dropWhile isDig29 with
  | _ :: _, 'v' :: '/' :: pre => String.mk pre.reverse
  | _, _ => path

/-- The characters after the last `/` of `before`, i.e.
`before[strings.LastIndexByte(before, '/')+1:]` (the whole string when
there is no `/`). -/
def lastSeg (before : List Char) : List Char :=
  (before.reverse.takeWhile (fun c => c ≠ '/')).reverse

/-- `RepoKind` (src/main.go line 259) is a string type. -/
abbrev RepoKind := String

/-- The constant `Plain = "plain"`. -/
def RepoKind.Plain : RepoKind := "plain"

/-- The constant `Forked = "forked"`. -/
def RepoKind.Forked : RepoKind := "forked"

/-- The constant `Shimmed = "shimmed"`. -/
def RepoKind.Shimmed : RepoKind := "shimmed"

/-- The constant `ForkedAndShimmed = "forked & shimmed"`. -/
def RepoKind.ForkedAndShimmed : RepoKind := "forked & shimmed"

/-- The method `(rk RepoKind) Shimmed()` (src/main.go lines 268-277); named
`withShim` here because the Go constant `Shimmed` already takes that name. -/
def RepoKind.withShim (rk : RepoKind) : RepoKind :=
  if rk = RepoKind.Plain then RepoKind.Shimmed
  else if rk = RepoKind.Forked then RepoKind.ForkedAndShimmed
  else rk

/-- The method `(rk RepoKind) IsForked()` (src/main.go lines 279-288). -/
def RepoKind.IsForked (rk : RepoKind) : Bool :=
  decide (rk = RepoKind.Forked ∨ rk = RepoKind.ForkedAndShimmed)

/-- The method `(rk RepoKind) IsShimmed()` (src/main.go lines 290-299). -/
def RepoKind.IsShimmed (rk : RepoKind) : Bool :=
  decide (rk = RepoKind.Shimmed ∨ rk = RepoKind.ForkedAndShimmed)

/-- `module.Version` of golang.org/x/mod (external library): a module path
and version string. -/
structure GoModule where
  path : String
  version : String
deriving DecidableEq

/-- A `modfile.Require` entry; only the `Mod` field is consulted by the
source, the others (Indirect, Syntax) are omitted. -/
structure Require where
  mod : GoModule
deriving DecidableEq

/-- A `modfile.Replace` entry: `Old` and `New` module coordinates (the
`Syntax` field is omitted). -/
structure Replace where
  old : GoModule
  new : GoModule
deriving DecidableEq

/-- The parts of a parsed `modfile.File` the source consults: the `Require`
and `Replace` lists. -/
structure ModFile where
  require : List Require
  replace : List Replace
deriving DecidableEq

/-- `GoMod` (src/main.go lines 342-346). -/
structure GoMod where
  kind : RepoKind
  upstream : GoModule
  fork : Option Replace
deriving DecidableEq

/-- Outcome of `os.Stat` on the shim directory: success, the
does-not-exist error, or any other error. -/
inductive StatResult where
  | ok : StatResult
  | notExist : StatResult
  | otherErr : String → StatResult
deriving DecidableEq

/-- The filesystem outcomes `repoKind` observes: the read+parse of
`provider/go.mod` (read and parse failures are both wrapped `go.mod: ` by
the source, so one `Except` carries either), the `os.Stat` of
`provider/shim`, and — consulted only when the stat succeeds — the read of
`provider/shim/go.mod` (its error is returned unwrapped) and its parse
(wrapped `shim/go.mod: `). -/
structure RepoEnv where
  providerGoMod : Except String ModFile
  shimStat : StatResult
  shimRead : Except String Unit
  shimParse : Except String ModFile
deriving DecidableEq

/-- Whether a require entry is the upstream dependency: its path, after
`modPathWithoutVersion`, ends with `terraform-provider-<name>`
(src/main.go lines 371-375). -/
def upstreamMatches (tfProviderRepoName : String) (m : Require) : Bool :=
  hasSfx (modPathWithoutVersion m.mod.path) tfProviderRepoName

/-- The loop body of `getUpstream` (src/main.go lines 369-378): return the
first matching require entry, or the could-not-find error. -/
def getUpstreamLoop (tfProviderRepoName : String) : List Require → Except String Require
  | [] =>
    .error ("could not find upstream " ++ sq ++ tfProviderRepoName ++ sq ++ " in go.mod")
  | m :: ms =>
    if upstreamMatches tfProviderRepoName m then .ok m
    else getUpstreamLoop tfProviderRepoName ms

/-- `getUpstream` (src/main.go lines 369-378) over a parsed manifest. -/
def getUpstream (tfProviderRepoName : String) (file : ModFile) : Except String Require :=
  getUpstreamLoop tfProviderRepoName file.require

/-- The error `go.mod: replace has incorrect repo: '<path>'`. -/
def incorrectRepoMsg (p : String) : String :=
  "go.mod: replace has incorrect repo: " ++ sq ++ p ++ sq

/-- The error `go.mod: tf fork maintained by '<org>': expected 'pulumi'`. -/
def forkOrgMsg (org : String) : String :=
  "go.mod: tf fork maintained by " ++ sq ++ org ++ sq ++ ": expected " ++ sq ++ "pulumi" ++ sq

/-- The fork-detection loop of `repoKind` (src/main.go lines 411-429):
scan the outer manifest's replace directives; skip those whose old path is
not the upstream path; at the first one that matches, validate its new
path (`strings.Cut` at `/terraform-provider-<name>`, the remainder empty
or a version suffix, the path segment before it `pulumi`) and either stop
with that replace (`break`) or fail. -/
def findFork (tfProviderRepoName upstreamPath : String) :
    List Replace → Except String (Option Replace)
  | [] => .ok none
  | r :: rs =>
    if r.old.path = upstreamPath then
      match goCut ("/" ++ tfProviderRepoName).data r.new.path.data with
      | none => .error (incorrectRepoMsg r.new.path)
      | some (before, after) =>
        if after ≠ [] ∧ matchVersionSuffix (String.mk after) = false then
          .error (incorrectRepoMsg r.new.path)
        else if String.mk (lastSeg before) ≠ "pulumi" then
          .error (forkOrgMsg (String.mk (lastSeg before)))
        else .ok (some r)
    else findFork tfProviderRepoName upstreamPath rs

/-- The shim branch of `repoKind` (src/main.go lines 380-407): when the
shim directory exists, read and parse its manifest and look the upstream
up there (recording shimmed); a stat error other than not-exist is fatal;
otherwise look the upstream up in the outer manifest. -/
def resolveUpstream (env : RepoEnv) (tfProviderRepoName : String) (goMod : ModFile) :
    Except String (Bool × Require) :=
  match env.shimStat with
  | .ok =>
    match env.shimRead with
    | .error e => .error e
    | .ok _ =>
      match env.shimParse with
      | .error e => .error ("shim/go.mod: " ++ e)
      | .ok shimMod =>
        match getUpstream tfProviderRepoName shimMod with
        | .error e => .error ("shim/go.mod: " ++ e)
        | .ok u => .ok (true, u)
  | .otherErr e => .error ("unexpected error reading shim directory: " ++ e)
  | .notExist =>
    match getUpstream tfProviderRepoName goMod with
    | .error e => .error ("go.mod: " ++ e)
    | .ok u => .ok (false, u)

/-- `repoKind` (src/main.go lines 355-447) over the abstracted filesystem
outcomes: parse the outer manifest, resolve the upstream (through the shim
when present), detect a fork among the outer replace directives, and
compose the kind. -/
def repoKind (env : RepoEnv) (providerName : String) : Except String GoMod :=
  match env.providerGoMod with
  | .error e => .error ("go.mod: " ++ e)
  | .ok goMod =>
    match resolveUpstream env ("terraform-provider-" ++ providerName) goMod with
    | .error e => .error e
    | .ok (shimmed, upstream) =>
      match findFork ("terraform-provider-" ++ providerName) upstream.mod.path goMod.replace with
      | .error e => .error e
      | .ok fork =>
        let kind : RepoKind := if fork.isSome then RepoKind.Forked else RepoKind.Plain
        .ok { kind := if shimmed then kind.withShim else kind
              upstream := upstream.mod
              fork := fork }

/-- Model of `semver.Version` (the Masterminds semver library, external to
this repository), restricted to the plain numeric fragment: major, minor
and patch numbers, no pre-release or build metadata. All versions used in
the theorems and witnesses below stay inside this fragment. -/
structure Version where
  major : Nat
  minor : Nat
  patch : Nat
deriving DecidableEq

/-- `(v *Version) LessThan(o)` of the Masterminds library on the numeric
fragment: lexicographic comparison of major, minor, patch. -/
def lessThanV (a b : Version) : Bool :=
  decide (a.major < b.major ∨
    (a.major = b.major ∧ (a.minor < b.minor ∨
      (a.minor = b.minor ∧ a.patch < b.patch))))

/-- An ASCII decimal digit. -/
def isDigit (c : Char) : Bool := '0' ≤ c && c ≤ '9'

/-- Decimal value of a digit string. -/
def digitsToNat (l : List Char) : Nat :=
  l.foldl (fun n c => n * 10 + (c.toNat - 48)) 0

/-- A nonempty all-digit component parsed as a number. -/
def parseNatPart (l : List Char) : Option Nat :=
  if l ≠ [] ∧ l.all isDigit then some (digitsToNat l) else none

/-- Split a character list on `.` separators. -/
def splitDots : List Char → List (List Char)
  | [] => [[]]
  | c :: cs =>
    if c = '.' then [] :: splitDots cs
    else
      match splitDots cs with
      | [] => [[c]]
      | p :: ps => (c :: p) :: ps

/-- Model of `semver.NewVersion` (Masterminds library, external to the
repository), restricted to the numeric fragment: an optional leading `v`,
then one to three dot-separated all-digit components (the library fills a
missing minor or patch with 0); anything else fails to parse. Pre-release
and metadata suffixes are outside the model. -/
def parseVersion (s : String) : Option Version :=
  let cs :=
    match s.data with
    | 'v' :: rest => rest
    | other => other
  match splitDots cs with
  | [a] =>
    match parseNatPart a with
    | some ma => some ⟨ma, 0, 0⟩
    | none => none
  | [a, b] =>
    match parseNatPart a, parseNatPart b with
    | some ma, some mi => some ⟨ma, mi, 0⟩
    | _, _ => none
  | [a, b, c] =>
    match parseNatPart a, parseNatPart b, parseNatPart c with
    | some ma, some mi, some pa => some ⟨ma, mi, pa⟩
    | _, _, _ => none
  | _ => none

/-- The title cuts of `getExpectedTarget` (src/main.go lines 470-478): cut
the title at the first `Upgrade terraform-provider-`, then cut the
remainder at the first ` to `; the final remainder is the candidate
version string. Note the provider name inside the title is never
inspected. -/
def parseTitleVersion (title : String) : Option String :=
  match goCut "Upgrade terraform-provider-".data title.data with
  | none => none
  | some (_, nameToVersion) =>
    match goCut " to ".data nameToVersion with
    | none => none
    | some (_, version) => some (String.mk version)

/-- The versions collected by `getExpectedTarget`'s loop (src/main.go
lines 469-483): candidate version strings that `semver.NewVersion`
accepts, in title order. -/
def versionsOf (titles : List String) : List Version :=
  titles.filterMap (fun t =>
    match parseTitleVersion t with
    | none => none
    | some v => parseVersion v)

/-- A maximum of a nonempty version list. The source sorts descending with
`sort.Slice` (comparator `versions[j].LessThan(versions[i])`, Go standard
library) and returns element 0; that element is a maximum under
`LessThan`, which this fold computes directly. -/
def maxVersion : Version → List Version → Version
  | v, [] => v
  | v, w :: ws => maxVersion (if lessThanV v w then w else v) ws

/-- The pure core of `getExpectedTarget` (src/main.go lines 449-491) after
the external `gh issue list` query returned the given issue titles. The
provider `name` parameter only scopes the external query
(`--repo=pulumi/<name>`); the title processing never consults it. -/
def getExpectedTarget (name : String) (titles : List String) : Except String Version :=
  match versionsOf titles with
  | [] => .error "no upgrade found"
  | v :: vs => .ok (maxVersion v vs)

/-- The selection loop of `pullDefault` (src/main.go lines 512-521): walk
the branch list with an accumulator that starts empty; a branch named
`main` ends the walk at once, a branch named `master` overwrites the
accumulator and the walk continues. -/
def pullLoop (target : String) : List String → String
  | [] => target
  | b :: bs =>
    if b = "main" then "main"
    else pullLoop (if b = "master" then "master" else target) bs

/-- Default-branch discovery of `pullDefault` (src/main.go lines 493-534)
over the branch names the `git ls-remote --heads` query returned: run the
selection loop, and fail when it selected nothing. (The source's error
message also embeds the Go `%#v` rendering of the branch list, which this
string model elides; the later checkout and pull are external calls.) -/
def pullDefaultSelect (branches : List String) : Except String String :=
  let targetBranch := pullLoop "" branches
  if targetBranch = "" then
    .error ("could not find " ++ sq ++ "main" ++ sq ++ " or " ++ sq ++ "master" ++ sq ++ " branch")
  else .ok targetBranch

/-- A Go `error` value as the top level sees it: the distinguished
`ErrHandled` (`HandledError{}`, src/main.go lines 65-71) or any other
error with its message. -/
inductive GoErr where
  | handled : GoErr
  | other : String → GoErr
deriving DecidableEq

/-- `ErrHandled` (src/main.go line 67). -/
def ErrHandled : GoErr := GoErr.handled

/-- The outcomes of the three `step.RunJob` calls of `UpgradeProvider`
(src/main.go lines 78-99, 111-177, 238-249), plus the repository kind the
discovery job bound: each job's success is the boolean `step.RunJob`
returns; the fork job's outcome is consulted only when the kind is
forked. -/
structure RunEnv where
  discoverOk : Bool
  kind : RepoKind
  forkJobOk : Bool
  upgradeOk : Bool
deriving DecidableEq

/-- The control flow of `UpgradeProvider` (src/main.go lines 73-257) over
the job outcomes: run the discovery job, on failure return `ErrHandled`;
when the discovered kind is forked run the fork-synchronization job, on
failure return `ErrHandled`; run the upgrade job, on failure return
`ErrHandled`, else return nil (`none`). The first component records the
jobs started, in order. -/
def UpgradeProviderRun (e : RunEnv) : List String × Option GoErr :=
  if e.discoverOk = false then (["Discovering Repository"], some ErrHandled)
  else if e.kind.IsForked then
    if e.forkJobOk = false then
      (["Discovering Repository", "Upgrading Forked Provider"], some ErrHandled)
    else if e.upgradeOk = false then
      (["Discovering Repository", "Upgrading Forked Provider", "Upgrading Provider"],
        some ErrHandled)
    else
      (["Discovering Repository", "Upgrading Forked Provider", "Upgrading Provider"], none)
  else
    if e.upgradeOk = false then
      (["Discovering Repository", "Upgrading Provider"], some ErrHandled)
    else (["Discovering Repository", "Upgrading Provider"], none)

/-- What the top level prints and the exit code it chooses. -/
structure CmdOutcome where
  printed : List String
  exitCode : Nat
deriving DecidableEq

/-- The top-level error handling of `cmd` (src/main.go lines 49-57):
`errors.Is(err, ErrHandled)` exits 1 with nothing printed; any other
non-nil error prints `error: <message>` and exits 1; nil falls through to
a normal exit 0. -/
def cmdRun (err : Option GoErr) : CmdOutcome :=
  match err with
  | some GoErr.handled => ⟨[], 1⟩
  | some (GoErr.other m) => ⟨["error: " ++ m], 1⟩
  | none => ⟨[], 0⟩

/-! ## Theorems -/

/-- C10: the withShim transform (the Go method `RepoKind.Shimmed`) maps
Plain to Shimmed and Forked to ForkedAndShimmed, is a no-op on Shimmed and
ForkedAndShimmed, and is idempotent on every RepoKind. -/
theorem c10_withShim_idempotent :
    RepoKind.withShim RepoKind.Plain = RepoKind.Shimmed ∧
    RepoKind.withShim RepoKind.Forked = RepoKind.ForkedAndShimmed ∧
    RepoKind.withShim RepoKind.Shimmed = RepoKind.Shimmed ∧
    RepoKind.withShim RepoKind.ForkedAndShimmed = RepoKind.ForkedAndShimmed ∧
    ∀ k : RepoKind, RepoKind.withShim (RepoKind.withShim k) = RepoKind.withShim k := by
  refine ⟨rfl, rfl, rfl, rfl, ?_⟩
  intro k
  by_cases h1 : k = RepoKind.Plain
  · subst h1; rfl
  · by_cases h2 : k = RepoKind.Forked
    · subst h2; rfl
    · have hk : RepoKind.withShim k = k := by simp [RepoKind.withShim, h1, h2]
      rw [hk, hk]

/-- C8: the top level exits 1 silently on the distinguished already-reported
error, prints `error: <message>` before exiting 1 on any other non-nil
error, and exits 0 printing nothing on a nil result. -/
theorem c8_top_level_error_rendering (err : Option GoErr) :
    (err = some ErrHandled → cmdRun err = ⟨[], 1⟩) ∧
    (∀ m, err = some (GoErr.other m) → cmdRun err = ⟨["error: " ++ m], 1⟩) ∧
    (err = none → cmdRun err = ⟨[], 0⟩) := by
  refine ⟨?_, ?_, ?_⟩
  · intro h; subst h; rfl
  · intro m h; subst h; rfl
  · intro h; subst h; rfl

/-- The selection loop of pullDefault computes: `main` when present,
otherwise `master` when present, otherwise the starting accumulator. -/
theorem pullLoop_spec (bs : List String) (t : String) :
    pullLoop t bs =
      if "main" ∈ bs then "main" else if "master" ∈ bs then "master" else t := by
  induction bs generalizing t with
  | nil => simp [pullLoop]
  | cons b bs ih =>
    by_cases hb : b = "main"
    · subst hb; simp [pullLoop]
    · by_cases hm : b = "master"
      · subst hm
        simp only [pullLoop, if_neg hb, if_pos rfl, ih]
        simp [List.mem_cons, Ne.symm hb]
      · simp only [pullLoop, if_neg hb, if_neg hm, ih]
        simp [List.mem_cons, Ne.symm hb, Ne.symm hm]

/-- C9: default-branch discovery selects the branch literally named `main`
when present (wherever it appears, even after `master`), otherwise
`master` when present, and fails when neither exists. -/
theorem c9_default_branch_selection (branches : List String) :
    ("main" ∈ branches → pullDefaultSelect branches = .ok "main") ∧
    ("main" ∉ branches → "master" ∈ branches →
      pullDefaultSelect branches = .ok "master") ∧
    ("main" ∉ branches → "master" ∉ branches →
      ∃ e, pullDefaultSelect branches = .error e) := by
  refine ⟨?_, ?_, ?_⟩
  · intro h
    simp [pullDefaultSelect, pullLoop_spec, h]
  · intro h1 h2
    simp [pullDefaultSelect, pullLoop_spec, h1, h2]
  · intro h1 h2
    refine ⟨"could not find " ++ sq ++ "main" ++ sq ++ " or " ++ sq ++ "master" ++ sq ++ " branch", ?_⟩
    simp [pullDefaultSelect, pullLoop_spec, h1, h2]

/-- C7: a failing Job aborts the run — no later Job is started and
UpgradeProvider returns ErrHandled — and the only non-nil error
UpgradeProvider ever returns is ErrHandled. -/
theorem c7_job_failure_aborts_run (e : RunEnv) :
    (∀ x, (UpgradeProviderRun e).2 = some x → x = ErrHandled) ∧
    (e.discoverOk = false →
      UpgradeProviderRun e = (["Discovering Repository"], some ErrHandled)) ∧
    (e.discoverOk = true → e.kind.IsForked = true → e.forkJobOk = false →
      UpgradeProviderRun e =
        (["Discovering Repository", "Upgrading Forked Provider"], some ErrHandled)) ∧
    ((e.discoverOk = false ∨ (e.kind.IsForked = true ∧ e.forkJobOk = false) ∨
        e.upgradeOk = false) →
      (UpgradeProviderRun e).2 = some ErrHandled) := by
  obtain ⟨d, k, f, u⟩ := e
  cases d <;> cases f <;> cases u <;> cases hk : k.IsForked <;>
    simp [UpgradeProviderRun, hk]

/-- `takeWhile`/`dropWhile` across an append whose left part satisfies the
predicate throughout and whose right part starts with a failing element. -/
theorem takeWhile_dropWhile_append (p : Char → Bool) (l r : List Char)
    (hl : ∀ c ∈ l, p c = true) (hr : ∀ c, r.head? = some c → p c = false) :
    (l ++ r).takeWhile p = l ∧ (l ++ r).dropWhile p = r := by
  induction l with
  | nil =>
    cases r with
    | nil => simp
    | cons c cs =>
      have := hr c rfl
      simp [List.takeWhile, List.dropWhile, this]
  | cons a l ih =>
    have ha : p a = true := hl a (List.mem_cons_self a l)
    have ih2 := ih (fun c hc => hl c (List.mem_cons_of_mem a hc))
    simp [List.takeWhile, List.dropWhile, ha, ih2.1, ih2.2]

/-- C2 counterexample: `modPathWithoutVersion` leaves `host/org/repo/v10`
unchanged — the `versionSuffix` regular expression `/v[2-9]+$` has no `0`
or `1` in its character class, so `/v10` is not a match — refuting the
claimed mapping to `host/org/repo`. -/
theorem c2_counterexample :
    modPathWithoutVersion "host/org/repo/v10" = "host/org/repo/v10" ∧
    modPathWithoutVersion "host/org/repo/v10" ≠ "host/org/repo" := by
  constructor
  · rfl
  · decide

/-- C2 amended: `modPathWithoutVersion` strips a trailing suffix `/v`
followed by one or more digits each between 2 and 9 (the regular
expression `/v[2-9]+$`); `host/org/repo/v10` is therefore unchanged, as
are `host/org/repo` and `host/org/repo/v1`. -/
theorem c2_version_suffix_stripping :
    modPathWithoutVersion "host/org/repo/v10" = "host/org/repo/v10" ∧
    modPathWithoutVersion "host/org/repo" = "host/org/repo" ∧
    modPathWithoutVersion "host/org/repo/v1" = "host/org/repo/v1" ∧
    modPathWithoutVersion "host/org/repo/v2" = "host/org/repo" ∧
    ∀ (pre : String) (ds : List Char), ds ≠ [] → (∀ c ∈ ds, isDig29 c = true) →
      modPathWithoutVersion (String.mk (pre.data ++ '/' :: 'v' :: ds)) = pre := by
  refine ⟨rfl, rfl, rfl, rfl, ?_⟩
  intro pre ds hne hds
  have hrev : (String.mk (pre.data ++ '/' :: 'v' :: ds)).data.reverse
      = ds.reverse ++ 'v' :: '/' :: pre.data.reverse := by
    simp
  have htd := takeWhile_dropWhile_append isDig29 ds.reverse ('v' :: '/' :: pre.data.reverse)
    (fun c hc => hds c (List.mem_reverse.mp hc))
    (fun c hc => by
      have : c = 'v' := by simpa using hc.symm
      subst this
      rfl)
  obtain ⟨a, as, ha⟩ := List.exists_cons_of_ne_nil (fun h => hne (List.reverse_eq_nil_iff.mp h))
  unfold modPathWithoutVersion
  rw [hrev, htd.1, htd.2, ha]
  simp

/-- `lessThanV` is irreflexive. -/
theorem lessThanV_irrefl (a : Version) : lessThanV a a = false := by
  simp [lessThanV]

/-- `lessThanV` is transitive. -/
theorem lessThanV_trans {a b c : Version} (h1 : lessThanV a b = true)
    (h2 : lessThanV b c = true) : lessThanV a c = true := by
  simp only [lessThanV, decide_eq_true_eq] at h1 h2 ⊢
  omega

/-- Strictly below `b` and `b` at most `c` gives strictly below `c`. -/
theorem lessThanV_lt_of_le {a b c : Version} (h1 : lessThanV a b = true)
    (h2 : lessThanV c b = false) : lessThanV a c = true := by
  simp only [lessThanV, decide_eq_true_eq, decide_eq_false_iff_not] at h1 h2 ⊢
  omega

/-- The fold computing the maximum of a version list: the result is the
accumulator or a list element, and nothing in sight exceeds it. -/
theorem maxVersion_spec (acc : Version) (ws : List Version) :
    (maxVersion acc ws = acc ∨ maxVersion acc ws ∈ ws) ∧
    lessThanV (maxVersion acc ws) acc = false ∧
    ∀ z ∈ ws, lessThanV (maxVersion acc ws) z = false := by
  induction ws generalizing acc with
  | nil =>
    refine ⟨Or.inl rfl, lessThanV_irrefl acc, ?_⟩
    intro z hz
    exact absurd hz (List.not_mem_nil z)
  | cons w ws ih =>
    obtain ⟨ihmem, ihacc, ihall⟩ := ih (if lessThanV acc w then w else acc)
    have hstep : maxVersion acc (w :: ws)
        = maxVersion (if lessThanV acc w then w else acc) ws := rfl
    by_cases hlt : lessThanV acc w = true
    · rw [if_pos hlt] at ihmem ihacc ihall
      refine ⟨?_, ?_, ?_⟩
      · rw [hstep, if_pos hlt]
        rcases ihmem with h | h
        · exact Or.inr (by rw [h]; exact List.mem_cons_self w ws)
        · exact Or.inr (List.mem_cons_of_mem w h)
      · rw [hstep, if_pos hlt]
        by_cases hma : lessThanV (maxVersion w ws) acc = true
        · exact absurd (lessThanV_trans hma hlt) (by simp [ihacc])
        · simpa using hma
      · intro z hz
        rw [hstep, if_pos hlt]
        rcases List.mem_cons.mp hz with h | h
        · subst h; exact ihacc
        · exact ihall z h
    · have hlt' : lessThanV acc w = false := by simpa using hlt
      rw [if_neg (by simp [hlt'])] at ihmem ihacc ihall
      refine ⟨?_, ?_, ?_⟩
      · rw [hstep, if_neg (by simp [hlt'])]
        rcases ihmem with h | h
        · exact Or.inl h
        · exact Or.inr (List.mem_cons_of_mem w h)
      · rw [hstep, if_neg (by simp [hlt'])]
        exact ihacc
      · intro z hz
        rw [hstep, if_neg (by simp [hlt'])]
        rcases List.mem_cons.mp hz with h | h
        · subst h
          by_cases hmw : lessThanV (maxVersion acc ws) z = true
          · exact absurd (lessThanV_lt_of_le hmw hlt') (by simp [ihacc])
          · simpa using hmw
        · exact ihall z h

/-- C3 counterexample: with requested provider name `foo`, a title about a
different provider (`terraform-provider-bar`) is still accepted — the
source never inspects the provider name inside a title — so the code
returns version 9.9.9 where the claim requires the title to be skipped and
the call to fail with `no upgrade found`. -/
theorem c3_counterexample :
    getExpectedTarget "foo" ["Upgrade terraform-provider-bar to 9.9.9"]
      = .ok ⟨9, 9, 9⟩ ∧
    getExpectedTarget "foo" ["Upgrade terraform-provider-bar to 9.9.9"]
      ≠ .error "no upgrade found" := by
  refine ⟨rfl, ?_⟩
  intro h
  rw [show getExpectedTarget "foo" ["Upgrade terraform-provider-bar to 9.9.9"]
    = .ok ⟨9, 9, 9⟩ from rfl] at h
  exact Except.noConfusion h

/-- C3 amended: getExpectedTarget considers the titles containing
`Upgrade terraform-provider-` followed somewhere by ` to ` with a
remainder that parses as a semantic version — the provider name inside a
title is never checked (scoping comes from the external issue query) and
the pattern need not start the title — skips the rest silently, returns a
maximum of the parsed versions under semantic-version ordering, and fails
with `no upgrade found` exactly when zero versions parse. -/
theorem c3_version_resolution (name : String) (titles : List String) :
    (versionsOf titles = [] →
      getExpectedTarget name titles = .error "no upgrade found") ∧
    (∀ v vs, versionsOf titles = v :: vs →
      ∃ w, getExpectedTarget name titles = .ok w ∧ (w = v ∨ w ∈ vs) ∧
        lessThanV w v = false ∧ ∀ z ∈ vs, lessThanV w z = false) := by
  constructor
  · intro h
    simp [getExpectedTarget, h]
  · intro v vs h
    obtain ⟨hmem, hacc, hall⟩ := maxVersion_spec v vs
    exact ⟨maxVersion v vs, by simp [getExpectedTarget, h], hmem, hacc, hall⟩

/-- First require entry of the C4 counterexample manifest. -/
def c4req1 : Require := ⟨⟨"github.com/hashicorp/terraform-provider-foo", "v1.0.0"⟩⟩

/-- Second require entry of the C4 counterexample manifest; its stripped
path also ends in `terraform-provider-foo`. -/
def c4req2 : Require := ⟨⟨"github.com/other/terraform-provider-foo", "v2.0.0"⟩⟩

/-- The C4 counterexample manifest: two distinct matching require
entries. -/
def c4file : ModFile := ⟨[c4req1, c4req2], []⟩

/-- C4 counterexample: a manifest with two distinct require entries that
both match the upstream-lookup is not fatal — the lookup silently returns
the first entry, refuting the claimed ambiguity error. -/
theorem c4_counterexample :
    upstreamMatches "terraform-provider-foo" c4req1 = true ∧
    upstreamMatches "terraform-provider-foo" c4req2 = true ∧
    c4req1 ≠ c4req2 ∧
    getUpstream "terraform-provider-foo" c4file = .ok c4req1 := by
  refine ⟨rfl, rfl, by decide, rfl⟩

/-- The upstream-lookup loop returns the first matching entry, and its
could-not-find error exactly when no entry matches. -/
theorem getUpstreamLoop_spec (tf : String) (l : List Require) :
    ((∀ r ∈ l, upstreamMatches tf r = false) →
      getUpstreamLoop tf l
        = .error ("could not find upstream " ++ sq ++ tf ++ sq ++ " in go.mod")) ∧
    (∀ r, l.find? (fun m => upstreamMatches tf m) = some r →
      getUpstreamLoop tf l = .ok r) := by
  induction l with
  | nil => exact ⟨fun _ => rfl, fun r h => by simp [List.find?] at h⟩
  | cons a l ih =>
    by_cases ha : upstreamMatches tf a = true
    · refine ⟨?_, ?_⟩
      · intro hall
        exact absurd ha (by simp [hall a (List.mem_cons_self a l)])
      · intro r h
        rw [List.find?_cons_of_pos _ ha] at h
        cases h
        simp [getUpstreamLoop, ha]
    · have ha' : upstreamMatches tf a = false := by simpa using ha
      refine ⟨?_, ?_⟩
      · intro hall
        rw [getUpstreamLoop, if_neg (by simp [ha'])]
        exact ih.1 (fun r hr => hall r (List.mem_cons_of_mem a hr))
      · intro r h
        rw [List.find?_cons_of_neg _ (by simp [ha'])] at h
        rw [getUpstreamLoop, if_neg (by simp [ha'])]
        exact ih.2 r h

/-- C4 amended: the upstream-lookup finds the FIRST require entry whose
path, after major-version-suffix stripping, ends with
`terraform-provider-<name>`; a manifest with no matching entry is fatal,
but with several matching entries the first is returned without error. -/
theorem c4_upstream_lookup (tf : String) (file : ModFile) :
    ((∀ r ∈ file.require, upstreamMatches tf r = false) →
      getUpstream tf file
        = .error ("could not find upstream " ++ sq ++ tf ++ sq ++ " in go.mod")) ∧
    (∀ r, file.require.find? (fun m => upstreamMatches tf m) = some r →
      getUpstream tf file = .ok r) :=
  getUpstreamLoop_spec tf file.require

/-- When the first replace directive whose old path equals the upstream
path cuts at `/terraform-provider-<name>` with a valid remainder but an
organization segment other than `pulumi`, the fork scan fails with the
maintained-by error. -/
theorem findFork_org_error (tf up : String) (l : List Replace) (r : Replace)
    (before after : List Char)
    (hfind : l.find? (fun x => decide (x.old.path = up)) = some r)
    (hcut : goCut ("/" ++ tf).data r.new.path.data = some (before, after))
    (hafter : after = [] ∨ matchVersionSuffix (String.mk after) = true)
    (horg : String.mk (lastSeg before) ≠ "pulumi") :
    findFork tf up l = .error (forkOrgMsg (String.mk (lastSeg before))) := by
  induction l with
  | nil => simp [List.find?] at hfind
  | cons x xs ih =>
    by_cases hx : x.old.path = up
    · rw [List.find?_cons_of_pos _ (by simp [hx])] at hfind
      cases hfind
      rw [findFork, if_pos hx, hcut]
      have hcond : ¬(after ≠ [] ∧ matchVersionSuffix (String.mk after) = false) := by
        rcases hafter with h | h
        · intro hc; exact hc.1 h
        · intro hc; rw [h] at hc; simp at hc
      dsimp only
      rw [if_neg hcond, if_pos horg]
    · rw [List.find?_cons_of_neg _ (by simp [hx])] at hfind
      rw [findFork, if_neg hx]
      exact ih hfind

/-- C1: when fork detection reaches the replace directive replacing the
discovered upstream, its new path contains `/terraform-provider-<name>`
with nothing after it but an optional version suffix, and the path segment
before that substring is not `pulumi`, classification fails with the
`tf fork maintained by <org>: expected pulumi` error — repoKind returns an
error, never a TopologyResult. -/
theorem c1_untrusted_fork_fatal (env : RepoEnv) (name : String) (m : ModFile)
    (shimmed : Bool) (u : Require) (r : Replace) (before after : List Char)
    (hm : env.providerGoMod = .ok m)
    (hu : resolveUpstream env ("terraform-provider-" ++ name) m = .ok (shimmed, u))
    (hfind : m.replace.find? (fun x => decide (x.old.path = u.mod.path)) = some r)
    (hcut : goCut ("/" ++ ("terraform-provider-" ++ name)).data r.new.path.data
      = some (before, after))
    (hafter : after = [] ∨ matchVersionSuffix (String.mk after) = true)
    (horg : String.mk (lastSeg before) ≠ "pulumi") :
    repoKind env name = .error (forkOrgMsg (String.mk (lastSeg before))) := by
  have hff := findFork_org_error ("terraform-provider-" ++ name) u.mod.path m.replace
    r before after hfind hcut hafter horg
  simp [repoKind, hm, hu, hff]

/-- Upstream require entry used by the C1 witness. -/
def c1up : GoModule := ⟨"github.com/hashicorp/terraform-provider-foo", "v1.0.0"⟩

/-- Replace directive of the C1 witness: the upstream is replaced by a
fork maintained by `evil`, not `pulumi`. -/
def c1rep : Replace := ⟨c1up, ⟨"github.com/evil/terraform-provider-foo", "v0.0.0"⟩⟩

/-- Outer manifest of the C1 witness. -/
def c1file : ModFile := ⟨[⟨c1up⟩], [c1rep]⟩

/-- Filesystem outcomes of the C1 witness: a readable outer manifest, no
shim directory. -/
def c1env : RepoEnv := ⟨.ok c1file, .notExist, .ok (), .error "unused"⟩

/-- C1 witness: on a concrete manifest whose fork is maintained by `evil`,
repoKind fails with the maintained-by error. -/
theorem c1_untrusted_fork_fatal_witness :
    repoKind c1env "foo" = .error (forkOrgMsg "evil") := by
  have h := c1_untrusted_fork_fatal c1env "foo" c1file false ⟨c1up⟩ c1rep
    "github.com/evil".data [] rfl rfl rfl rfl (Or.inl rfl) (by decide)
  exact h

/-- C5: when the shim directory exists and its own manifest resolves the
upstream, any successful classification records a shimmed kind and takes
the Upstream coordinates from the shim manifest — the outer manifest's
require entries (matching or not) are never consulted for the upstream. -/
theorem c5_shim_overrides_upstream (env : RepoEnv) (name : String)
    (ms : ModFile) (u : Require)
    (hstat : env.shimStat = .ok)
    (hread : env.shimRead = .ok ())
    (hparse : env.shimParse = .ok ms)
    (hup : getUpstream ("terraform-provider-" ++ name) ms = .ok u) :
    ∀ g, repoKind env name = .ok g → g.upstream = u.mod ∧ g.kind.IsShimmed = true := by
  intro g hg
  cases hp : env.providerGoMod with
  | error e => simp [repoKind, hp] at hg
  | ok m =>
    have hru : resolveUpstream env ("terraform-provider-" ++ name) m = .ok (true, u) := by
      simp [resolveUpstream, hstat, hread, hparse, hup]
    cases hff : findFork ("terraform-provider-" ++ name) u.mod.path m.replace with
    | error e => simp [repoKind, hp, hru, hff] at hg
    | ok fork =>
      simp only [repoKind, hp, hru, hff] at hg
      cases hg
      cases fork <;> exact ⟨rfl, rfl⟩

/-- Upstream entry of the C5 witness's shim manifest. -/
def c5up : GoModule := ⟨"github.com/shimorg/terraform-provider-foo/v3", "v3.1.0"⟩

/-- Outer manifest of the C5 witness: its own matching require entry names
a different upstream. -/
def c5outer : ModFile := ⟨[⟨⟨"github.com/other/terraform-provider-foo", "v9.0.0"⟩⟩], []⟩

/-- Shim manifest of the C5 witness. -/
def c5shim : ModFile := ⟨[⟨c5up⟩], []⟩

/-- Filesystem outcomes of the C5 witness: shim directory present with a
readable manifest. -/
def c5env : RepoEnv := ⟨.ok c5outer, .ok, .ok (), .ok c5shim⟩

/-- The classification result of the C5 witness. -/
def c5result : GoMod := ⟨RepoKind.Shimmed, c5up, none⟩

/-- C5 witness: on a concrete repository with a shim manifest whose
upstream differs from the outer manifest's matching entry, classification
succeeds with the shim's upstream and a shimmed kind. -/
theorem c5_shim_overrides_upstream_witness :
    repoKind c5env "foo" = .ok c5result ∧
    c5result.upstream = c5up ∧ c5result.kind.IsShimmed = true := by
  refine ⟨rfl, ?_⟩
  have h := c5_shim_overrides_upstream c5env "foo" c5shim ⟨c5up⟩
    rfl rfl rfl rfl c5result rfl
  exact h

/-- C6: every successful classification satisfies the invariant that the
Fork descriptor is present exactly when the kind is forked
(Forked or ForkedAndShimmed). -/
theorem c6_fork_iff_forked_kind (env : RepoEnv) (name : String) (g : GoMod)
    (h : repoKind env name = .ok g) : g.fork.isSome = g.kind.IsForked := by
  cases hp : env.providerGoMod with
  | error e => simp [repoKind, hp] at h
  | ok m =>
    cases hru : resolveUpstream env ("terraform-provider-" ++ name) m with
    | error e => simp [repoKind, hp, hru] at h
    | ok p =>
      obtain ⟨shimmed, u⟩ := p
      cases hff : findFork ("terraform-provider-" ++ name) u.mod.path m.replace with
      | error e => simp [repoKind, hp, hru, hff] at h
      | ok fork =>
        simp only [repoKind, hp, hru, hff] at h
        cases h
        cases fork <;> cases shimmed <;> rfl

/-- Outer manifest of the C6 witness: a trusted fork replace directive. -/
def c6file : ModFile :=
  ⟨[⟨c1up⟩], [⟨c1up, ⟨"github.com/pulumi/terraform-provider-foo", "v0.0.0"⟩⟩]⟩

/-- Filesystem outcomes of the C6 witness. -/
def c6env : RepoEnv := ⟨.ok c6file, .notExist, .ok (), .error "unused"⟩

/-- The classification result of the C6 witness: forked, fork present. -/
def c6result : GoMod :=
  ⟨RepoKind.Forked, c1up, some ⟨c1up, ⟨"github.com/pulumi/terraform-provider-foo", "v0.0.0"⟩⟩⟩

/-- C6 witness: the invariant at a concrete successful classification. -/
theorem c6_fork_iff_forked_kind_witness :
    c6result.fork.isSome = c6result.kind.IsForked :=
  c6_fork_iff_forked_kind c6env "foo" c6result rfl

end UpgradeProvider
